import Mathlib

/-!
Verification of the chain synchronization and transaction lifecycle engine of a
browser client for a blockchain node.  The definitions below are a shallow
embedding of the TypeScript source: the event deduplication pipeline and the
ingestion cycle of useSystemEvents, the signAndSend extrinsic submission
protocol, the connection state handlers of useConnectApi, the checkUntil and
blockBarrier polling primitives, and the query branch of useRunner.
-/

/-- One emitted chain event record, tagged with its section and method.
The payload irrelevant to filtering and merging is omitted. -/
structure RawEvent where
  sect : String
  method : String
deriving DecidableEq

/-- A raw event paired with the set of batch indexes it collapsed from
(interface IndexedEvent of the source). -/
structure IndexedEvent where
  indexes : List Nat
  record : RawEvent
deriving DecidableEq

/-- The noise filter of useSystemEvents, keeping an event exactly when the
source filter callback returns true:
section !== system, and not a balances or treasury Deposit, and not a
parasInclusion or inclusion CandidateBacked or CandidateIncluded. -/
def keepEvent (e : RawEvent) : Bool :=
  !(e.sect == "system") &&
  (!(e.sect == "balances" || e.sect == "treasury") || !(e.method == "Deposit")) &&
  (!(e.sect == "parasInclusion" || e.sect == "inclusion") ||
    !(e.method == "CandidateBacked" || e.method == "CandidateIncluded"))

/-- Does an accumulator entry carry the same (section, method) kind?
This is the predicate of the combined.find call in the source reduce. -/
def matchesKind (s m : String) (p : IndexedEvent) : Bool :=
  p.record.sect == s && p.record.method == m

/-- Append the given indexes to the first accumulator entry of the given kind,
modelling the in-place prev.indexes.push of the source. -/
def pushIndexes (s m : String) (idxs : List Nat) : List IndexedEvent → List IndexedEvent
  | [] => []
  | p :: rest =>
    if matchesKind s m p then { p with indexes := p.indexes ++ idxs } :: rest
    else p :: pushIndexes s m idxs rest

/-- One step of the source reduce: if an entry of the same kind exists
(combined.find succeeds), push the indexes into it, otherwise append. -/
def combineStep (combined : List IndexedEvent) (e : IndexedEvent) : List IndexedEvent :=
  if combined.any (matchesKind e.record.sect e.record.method) then
    pushIndexes e.record.sect e.record.method e.indexes combined
  else combined ++ [e]

/-- The deduplication pipeline of useSystemEvents: index, filter, reduce,
reverse -- translated from the source. -/
def dedupe (records : List RawEvent) : List IndexedEvent :=
  ((((records.enum.map
      (fun p => ({ indexes := [p.1], record := p.2 } : IndexedEvent))).filter
      (fun e => keepEvent e.record)).foldl combineStep [])).reverse

/-- Drop table written from the words of claim C2: drop every system event,
every balances or treasury Deposit, every parasInclusion or inclusion
CandidateBacked or CandidateIncluded. -/
def dropEventSpec (e : RawEvent) : Bool :=
  (e.sect == "system") ||
  ((e.sect == "balances" || e.sect == "treasury") && (e.method == "Deposit")) ||
  ((e.sect == "parasInclusion" || e.sect == "inclusion") &&
    (e.method == "CandidateBacked" || e.method == "CandidateIncluded"))

/-- Merge step written from the words of claim C2: if an entry with the same
(section, method) already occurs in the accumulator, append this index set to
that entry, otherwise append a new entry. -/
def combineStepSpec (combined : List IndexedEvent) (e : IndexedEvent) : List IndexedEvent :=
  if combined.any (matchesKind e.record.sect e.record.method) then
    combined.map (fun p =>
      if matchesKind e.record.sect e.record.method p then
        { p with indexes := p.indexes ++ e.indexes }
      else p)
  else combined ++ [e]

/-- The deduplication pipeline as described by the words of claim C2, to be
compared with the dedupe definition taken from the source. -/
def dedupeSpec (records : List RawEvent) : List IndexedEvent :=
  ((((records.enum.map
      (fun p => ({ indexes := [p.1], record := p.2 } : IndexedEvent))).filter
      (fun e => !dropEventSpec e.record)).foldl combineStepSpec [])).reverse

/-- The (section, method) kind of an accumulator entry. -/
def kindOf (p : IndexedEvent) : String × String :=
  (p.record.sect, p.record.method)

/-- The accumulator invariant of the reduce: all entries carry pairwise
distinct kinds. -/
def DistinctKinds (l : List IndexedEvent) : Prop :=
  l.Pairwise (fun a b => kindOf a ≠ kindOf b)

theorem matchesKind_iff (s m : String) (p : IndexedEvent) :
    matchesKind s m p = true ↔ kindOf p = (s, m) := by
  simp [matchesKind, kindOf, Prod.ext_iff]

theorem any_matches_false {s m : String} {l : List IndexedEvent}
    (h : l.any (matchesKind s m) = false) : ∀ p ∈ l, matchesKind s m p = false := by
  intro p hp
  by_contra hc
  have hne : l.any (matchesKind s m) = true :=
    List.any_eq_true.mpr ⟨p, hp, by revert hc; cases matchesKind s m p <;> simp⟩
  rw [h] at hne
  exact Bool.false_ne_true hne

theorem map_merge_id {s m : String} {idxs : List Nat} {l : List IndexedEvent}
    (h : ∀ p ∈ l, matchesKind s m p = false) :
    l.map (fun p => if matchesKind s m p then { p with indexes := p.indexes ++ idxs } else p)
      = l := by
  induction l with
  | nil => rfl
  | cons p rest ih =>
    simp only [List.map_cons, h p (List.mem_cons_self p rest),
      ih (fun q hq => h q (List.mem_cons_of_mem p hq)), if_neg]
    simp

theorem pushIndexes_eq_map {s m : String} {idxs : List Nat} {l : List IndexedEvent}
    (hd : DistinctKinds l) :
    pushIndexes s m idxs l =
      l.map (fun p => if matchesKind s m p then { p with indexes := p.indexes ++ idxs } else p) := by
  induction l with
  | nil => rfl
  | cons p rest ih =>
    rcases List.pairwise_cons.mp hd with ⟨hp, hrest⟩
    cases hm : matchesKind s m p with
    | true =>
      have hkind : kindOf p = (s, m) := (matchesKind_iff s m p).mp hm
      have hnomatch : ∀ q ∈ rest, matchesKind s m q = false := by
        intro q hq
        by_contra hc
        have hq' : matchesKind s m q = true := by revert hc; cases matchesKind s m q <;> simp
        exact hp q hq (hkind.trans ((matchesKind_iff s m q).mp hq').symm)
      simp only [pushIndexes, hm, if_pos, List.map_cons, map_merge_id hnomatch]
    | false =>
      simp only [pushIndexes, hm, List.map_cons, if_neg, Bool.false_eq_true,
        not_false_iff, ih hrest]

theorem kindOf_pushIndexes (s m : String) (idxs : List Nat) (l : List IndexedEvent) :
    (pushIndexes s m idxs l).map kindOf = l.map kindOf := by
  induction l with
  | nil => rfl
  | cons p rest ih =>
    cases hm : matchesKind s m p with
    | true => simp [pushIndexes, hm, kindOf]
    | false => simp [pushIndexes, hm, ih]

theorem distinct_iff_map (l : List IndexedEvent) :
    DistinctKinds l ↔ (l.map kindOf).Pairwise (· ≠ ·) := by
  rw [List.pairwise_map]
  rfl

theorem distinct_pushIndexes {s m : String} {idxs : List Nat} {l : List IndexedEvent}
    (hd : DistinctKinds l) : DistinctKinds (pushIndexes s m idxs l) := by
  rw [distinct_iff_map, kindOf_pushIndexes]
  exact (distinct_iff_map l).mp hd

theorem combineStep_eq_spec {acc : List IndexedEvent} (e : IndexedEvent)
    (hd : DistinctKinds acc) : combineStep acc e = combineStepSpec acc e := by
  unfold combineStep combineStepSpec
  cases hany : acc.any (matchesKind e.record.sect e.record.method) with
  | true => simp only [if_pos, pushIndexes_eq_map hd]
  | false => rfl

theorem distinct_combineStep {acc : List IndexedEvent} (e : IndexedEvent)
    (hd : DistinctKinds acc) : DistinctKinds (combineStep acc e) := by
  unfold combineStep
  cases hany : acc.any (matchesKind e.record.sect e.record.method) with
  | true =>
    simp only [if_pos]
    exact distinct_pushIndexes hd
  | false =>
    simp only [Bool.false_eq_true, if_neg, not_false_iff]
    have hno := any_matches_false hany
    apply List.pairwise_append.mpr
    refine ⟨hd, List.pairwise_singleton _ _, ?_⟩
    intro a ha b hb
    have hb' : b = e := List.mem_singleton.mp hb
    intro hk
    have hm : matchesKind e.record.sect e.record.method a = true :=
      (matchesKind_iff _ _ a).mpr (by rw [hk, hb']; rfl)
    rw [hno a ha] at hm
    exact Bool.false_ne_true hm

theorem foldl_combine_eq (es : List IndexedEvent) (acc : List IndexedEvent)
    (hd : DistinctKinds acc) :
    es.foldl combineStep acc = es.foldl combineStepSpec acc := by
  induction es generalizing acc with
  | nil => rfl
  | cons e es ih =>
    have heq := combineStep_eq_spec e hd
    have hdist := distinct_combineStep e hd
    simp only [List.foldl_cons]
    rw [← heq]
    exact ih (combineStep acc e) hdist

theorem keepEvent_eq_not_drop (e : RawEvent) : keepEvent e = !dropEventSpec e := by
  unfold keepEvent dropEventSpec
  cases e.sect == "system" <;> cases e.sect == "balances" <;> cases e.sect == "treasury" <;>
    cases e.method == "Deposit" <;> cases e.sect == "parasInclusion" <;>
    cases e.sect == "inclusion" <;> cases e.method == "CandidateBacked" <;>
    cases e.method == "CandidateIncluded" <;> rfl

theorem dedupe_eq_dedupeSpec (records : List RawEvent) :
    dedupe records = dedupeSpec records := by
  unfold dedupe dedupeSpec
  have hfil : ∀ e : IndexedEvent, keepEvent e.record = !dropEventSpec e.record :=
    fun e => keepEvent_eq_not_drop e.record
  simp only [hfil]
  rw [foldl_combine_eq _ [] (List.Pairwise.nil)]

/-- Claim C2: the deduplication pipeline applied to a raw batch equals the
described function (index, drop the noise table, merge same-kind entries left
to right, reverse); the sample batch [(alpha,m,0),(alpha,m,1),(beta,n,2)]
yields [(beta,n,[2]),(alpha,m,[0,1])]; identical batches yield identical
output. -/
theorem claim_C2 :
    (∀ batch, dedupe batch = dedupeSpec batch) ∧
    dedupe [⟨"alpha", "m"⟩, ⟨"alpha", "m"⟩, ⟨"beta", "n"⟩] =
      [⟨[2], ⟨"beta", "n"⟩⟩, ⟨[0, 1], ⟨"alpha", "m"⟩⟩] ∧
    (∀ b1 b2, b1 = b2 → dedupe b1 = dedupe b2) := by
  refine ⟨dedupe_eq_dedupeSpec, by decide, ?_⟩
  intro b1 b2 h
  rw [h]

/-- Witness for claim C2 at a concrete batch. -/
theorem claim_C2_w : dedupe [⟨"alpha", "m"⟩] = dedupe [⟨"alpha", "m"⟩] :=
  claim_C2.2.2 [⟨"alpha", "m"⟩] [⟨"alpha", "m"⟩] rfl

/-- Bound on the stored event list, constant MAX_EVENTS of the source. -/
def MAX_EVENTS : Nat := 75

/-- An entry of the stored event list (interface KeyedEvent of the source). -/
structure KeyedEvent where
  blockHash : Option String
  blockNumber : Option Nat
  indexes : List Nat
  key : String
  record : RawEvent
deriving DecidableEq

/-- The systemEventsAtom value: raw batch size of the last delivery and the
stored deduplicated event list, newest first. -/
structure SystemEventsState where
  eventCount : Nat
  events : List KeyedEvent
deriving DecidableEq

/-- The mutable trackers of the ingestion cycle (interface PrevHashes):
last stored block hash and last stored event content hash. -/
structure PrevHashes where
  block : Option String
  event : Option String
deriving DecidableEq

/-- Trackers plus stored state, the whole state the ingestion callback
mutates. -/
structure IngestState where
  prev : PrevHashes
  st : SystemEventsState
deriving DecidableEq

/-- Enrich a deduplicated entry into a KeyedEvent, as the map in the
setEvents call of the source: key is blockNumber-blockHash-indexes. -/
def toKeyed (bn : Nat) (bh : String) (e : IndexedEvent) : KeyedEvent :=
  { blockHash := some bh
    blockNumber := some bn
    indexes := e.indexes
    key := toString bn ++ "-" ++ bh ++ "-" ++ String.intercalate "." (e.indexes.map toString)
    record := e.record }

/-- One ingestion delivery of useSystemEvents, translated from the source
callback.  The content hash (xxhashAsHex of the stringified candidate list in
the source) is passed in as a function, and the header fetched for the batch
is passed in as its block number and block hash. -/
def ingestStep (hash : List IndexedEvent → String) (records : List RawEvent)
    (bn : Nat) (bh : String) (s : IngestState) : IngestState :=
  let newEvents := dedupe records
  let newEventHash := hash newEvents
  if some newEventHash ≠ s.prev.event ∧ newEvents.length ≠ 0 then
    let prev1 : PrevHashes := { s.prev with event := some newEventHash }
    if some bh ≠ s.prev.block then
      { prev := { prev1 with block := some bh }
        st := { eventCount := records.length
                events := (newEvents.map (toKeyed bn bh) ++
                  s.st.events.filter (fun p => !(p.blockNumber == some bn))).take MAX_EVENTS } }
    else
      { prev := prev1, st := s.st }
  else
    { prev := s.prev, st := { eventCount := records.length, events := s.st.events } }

/-- Claim C3: on a delivery with non-empty candidate list, changed content
hash and changed block hash, the new stored list is the new KeyedEvents
followed by the previously stored entries of a different block number,
truncated to the first MAX_EVENTS = 75; hence it never exceeds 75 entries
and every prior entry at the new height is evicted. -/
theorem claim_C3 (hash : List IndexedEvent → String) (records : List RawEvent)
    (bn : Nat) (bh : String) (s : IngestState)
    (h1 : dedupe records ≠ [])
    (h2 : some (hash (dedupe records)) ≠ s.prev.event)
    (h3 : some bh ≠ s.prev.block) :
    (ingestStep hash records bn bh s).st.events =
      ((dedupe records).map (toKeyed bn bh) ++
        s.st.events.filter (fun p => !(p.blockNumber == some bn))).take MAX_EVENTS ∧
    MAX_EVENTS = 75 ∧
    (ingestStep hash records bn bh s).st.events.length ≤ 75 ∧
    (∀ p ∈ (ingestStep hash records bn bh s).st.events,
      p ∈ (dedupe records).map (toKeyed bn bh) ∨
        (p ∈ s.st.events ∧ p.blockNumber ≠ some bn)) := by
  have hlen : (dedupe records).length ≠ 0 := fun hl => h1 (List.length_eq_zero.mp hl)
  have hstep : ingestStep hash records bn bh s =
      { prev := { block := some bh, event := some (hash (dedupe records)) }
        st := { eventCount := records.length
                events := ((dedupe records).map (toKeyed bn bh) ++
                  s.st.events.filter (fun p => !(p.blockNumber == some bn))).take
                    MAX_EVENTS } } := by
    unfold ingestStep
    rw [if_pos ⟨h2, hlen⟩, if_pos h3]
  refine ⟨by rw [hstep], rfl, ?_, ?_⟩
  · rw [hstep]
    calc (((dedupe records).map (toKeyed bn bh) ++
        s.st.events.filter (fun p => !(p.blockNumber == some bn))).take MAX_EVENTS).length
        ≤ MAX_EVENTS := by
          rw [List.length_take]
          exact Nat.min_le_left _ _
      _ = 75 := rfl
  · intro p hp
    rw [hstep] at hp
    have hp' := List.take_subset _ _ hp
    rcases List.mem_append.mp hp' with hnew | hold
    · exact Or.inl hnew
    · rcases List.mem_filter.mp hold with ⟨hmem, hcond⟩
      refine Or.inr ⟨hmem, ?_⟩
      simpa using hcond

/-- Witness for claim C3 at a concrete delivery, checking the bound on the
stored list. -/
theorem claim_C3_w :
    (ingestStep (fun l => toString l.length) [⟨"alpha", "m"⟩] 5 "0xnew"
      { prev := { block := none, event := none }
        st := { eventCount := 0
                events := [⟨some "0xold", some 5, [0], "5-0xold-0",
                  ⟨"beta", "n"⟩⟩] } }).st.events.length ≤ 75 :=
  (claim_C3 (fun l => toString l.length) [⟨"alpha", "m"⟩] 5 "0xnew"
    { prev := { block := none, event := none }
      st := { eventCount := 0
              events := [⟨some "0xold", some 5, [0], "5-0xold-0", ⟨"beta", "n"⟩⟩] } }
    (by decide) (by decide) (by decide)).2.2.1

/-- Counterexample to claim C4: a delivery whose candidate hash differs from
the event tracker but whose block hash equals the block tracker leaves the
stored list untouched (so it is within the scope of the claim), yet it does
not update eventCount to the raw batch size 1 and it disturbs the event-hash
tracker. -/
theorem claim_C4_cx :
    (ingestStep (fun l => toString l.length) [⟨"alpha", "m"⟩] 5 "0xb"
      { prev := { block := some "0xb", event := some "zz" }
        st := { eventCount := 0, events := [] } }).st.events = [] ∧
    ¬ ((ingestStep (fun l => toString l.length) [⟨"alpha", "m"⟩] 5 "0xb"
        { prev := { block := some "0xb", event := some "zz" }
          st := { eventCount := 0, events := [] } }).st.eventCount = 1 ∧
      (ingestStep (fun l => toString l.length) [⟨"alpha", "m"⟩] 5 "0xb"
        { prev := { block := some "0xb", event := some "zz" }
          st := { eventCount := 0, events := [] } }).prev =
        { block := some "0xb", event := some "zz" }) := by
  decide

/-- Claim C4, amended: a delivery with an empty candidate list or an unchanged
content hash updates only eventCount and leaves the stored list and both
trackers untouched; a delivery with a changed non-empty candidate hash whose
block hash equals the block tracker leaves the stored state (list and
eventCount) and the block tracker untouched but updates the event-hash tracker
to the new hash. -/
theorem claim_C4 (hash : List IndexedEvent → String) (records : List RawEvent)
    (bn : Nat) (bh : String) (s : IngestState) :
    ((dedupe records = [] ∨ some (hash (dedupe records)) = s.prev.event) →
      ingestStep hash records bn bh s =
        { prev := s.prev, st := { eventCount := records.length, events := s.st.events } }) ∧
    ((dedupe records ≠ [] ∧ some (hash (dedupe records)) ≠ s.prev.event ∧
        some bh = s.prev.block) →
      ingestStep hash records bn bh s =
        { prev := { s.prev with event := some (hash (dedupe records)) }, st := s.st }) := by
  constructor
  · intro hcase
    unfold ingestStep
    rw [if_neg]
    rintro ⟨hne, hlen⟩
    rcases hcase with he | hh
    · exact hlen (by rw [he]; rfl)
    · exact hne hh
  · rintro ⟨h1, h2, h3⟩
    unfold ingestStep
    rw [if_pos ⟨h2, fun hl => h1 (List.length_eq_zero.mp hl)⟩, if_neg (fun hc => hc h3)]

/-- Witness for the amended claim C4 at a concrete no-change delivery. -/
theorem claim_C4_w :
    ingestStep (fun l => toString l.length) [] 1 "0xb"
      { prev := { block := none, event := none }
        st := { eventCount := 3, events := [] } } =
      { prev := { block := none, event := none }
        st := { eventCount := 0, events := [] } } :=
  (claim_C4 (fun l => toString l.length) [] 1 "0xb"
    { prev := { block := none, event := none }
      st := { eventCount := 3, events := [] } }).1 (Or.inl (by decide))

/-- The connection status values of the source (type ApiConnectionStatus). -/
inductive ConnStatus where
  | disconnected
  | connecting
  | connected
  | error
deriving DecidableEq

/-- The connection-related state touched by the handlers of useConnectApi:
status atom, endpoint atom, whether an api instance is held, and the error
message atom. -/
structure ConnState where
  status : ConnStatus
  endpointUrl : String
  hasApi : Bool
  errorMsg : String
deriving DecidableEq

/-- Delay of the liveness timer registered after entering connecting,
the literal passed to setTimeout in the source. -/
def connectTimeoutMs : Nat := 10000

/-- The setTimeout callback of useConnectApi: if the status is anything but
connected, clear the api instance and the endpoint, surface the timeout
message and force the status to error; otherwise keep the state. -/
def timeoutHandler (s : ConnState) : ConnState :=
  if s.status ≠ ConnStatus.connected then
    { status := ConnStatus.error, endpointUrl := "", hasApi := false
      errorMsg := "RPC Endpoint is unreachable" }
  else s

/-- The api disconnected handler of useConnectApi: keep an error status,
otherwise become disconnected; the endpoint is cleared either way. -/
def disconnectedHandler (s : ConnState) : ConnState :=
  { s with
    status := if s.status = ConnStatus.error then s.status else ConnStatus.disconnected
    endpointUrl := "" }

/-- The api connected handler of useConnectApi: set the status to connected,
with no guard on the current status. -/
def connectedHandler (s : ConnState) : ConnState :=
  { s with status := ConnStatus.connected }

/-- Counterexample to claim C5: a state that already left connecting (here it
is disconnected) is still affected by the timer: the handler forces it to
error, so the timer is not implicitly canceled by having left connecting. -/
theorem claim_C5_cx :
    timeoutHandler
        { status := ConnStatus.disconnected, endpointUrl := "ws://x", hasApi := true
          errorMsg := "" } ≠
      { status := ConnStatus.disconnected, endpointUrl := "ws://x", hasApi := true
        errorMsg := "" } ∧
    (timeoutHandler
        { status := ConnStatus.disconnected, endpointUrl := "ws://x", hasApi := true
          errorMsg := "" }).status = ConnStatus.error := by
  decide

/-- Claim C5, amended: the liveness timer fires 10000 ms after entering
connecting; when it fires on any status other than connected it forces the
state to error, clears the endpoint and the api handle and surfaces the
timeout message; it has no effect only when the status is already
connected. -/
theorem claim_C5 :
    connectTimeoutMs = 10000 ∧
    (∀ s : ConnState, s.status ≠ ConnStatus.connected →
      timeoutHandler s =
        { status := ConnStatus.error, endpointUrl := "", hasApi := false
          errorMsg := "RPC Endpoint is unreachable" }) ∧
    (∀ s : ConnState, s.status = ConnStatus.connected → timeoutHandler s = s) := by
  refine ⟨rfl, ?_, ?_⟩
  · intro s hs
    unfold timeoutHandler
    rw [if_pos hs]
  · intro s hs
    unfold timeoutHandler
    rw [if_neg (by rw [hs]; intro hc; exact hc rfl)]

/-- Witness for the amended claim C5 at a connecting and a connected state. -/
theorem claim_C5_w :
    timeoutHandler
        { status := ConnStatus.connecting, endpointUrl := "ws://x", hasApi := false
          errorMsg := "" } =
      { status := ConnStatus.error, endpointUrl := "", hasApi := false
        errorMsg := "RPC Endpoint is unreachable" } ∧
    timeoutHandler
        { status := ConnStatus.connected, endpointUrl := "ws://x", hasApi := true
          errorMsg := "" } =
      { status := ConnStatus.connected, endpointUrl := "ws://x", hasApi := true
        errorMsg := "" } :=
  ⟨claim_C5.2.1
      { status := ConnStatus.connecting, endpointUrl := "ws://x", hasApi := false
        errorMsg := "" } (by decide),
    claim_C5.2.2
      { status := ConnStatus.connected, endpointUrl := "ws://x", hasApi := true
        errorMsg := "" } rfl⟩

/-- Counterexample to claim C6: from an error state, the protocol-ready
handler does move the status to connected. -/
theorem claim_C6_cx :
    ({ status := ConnStatus.error, endpointUrl := "", hasApi := false,
        errorMsg := "RPC Error" } : ConnState).status = ConnStatus.error ∧
    (connectedHandler
        { status := ConnStatus.error, endpointUrl := "", hasApi := false,
          errorMsg := "RPC Error" }).status = ConnStatus.connected := by
  decide

/-- Claim C6, amended: a transport disconnect signal leaves an error status at
error (and moves any other status to disconnected), but a protocol-ready
signal unconditionally sets the status to connected, even from error. -/
theorem claim_C6 :
    (∀ s : ConnState, s.status = ConnStatus.error →
      (disconnectedHandler s).status = ConnStatus.error) ∧
    (∀ s : ConnState, s.status ≠ ConnStatus.error →
      (disconnectedHandler s).status = ConnStatus.disconnected) ∧
    (∀ s : ConnState, (connectedHandler s).status = ConnStatus.connected) := by
  refine ⟨?_, ?_, fun s => rfl⟩
  · intro s hs
    unfold disconnectedHandler
    simp only [hs, if_pos]
  · intro s hs
    unfold disconnectedHandler
    simp only [if_neg hs]

/-- Witness for the amended claim C6 at an error and a connected state. -/
theorem claim_C6_w :
    (disconnectedHandler
        { status := ConnStatus.error, endpointUrl := "ws://x", hasApi := false
          errorMsg := "RPC Error" }).status = ConnStatus.error ∧
    (disconnectedHandler
        { status := ConnStatus.connected, endpointUrl := "ws://x", hasApi := true
          errorMsg := "" }).status = ConnStatus.disconnected :=
  ⟨claim_C6.1
      { status := ConnStatus.error, endpointUrl := "ws://x", hasApi := false
        errorMsg := "RPC Error" } rfl,
    claim_C6.2.1
      { status := ConnStatus.connected, endpointUrl := "ws://x", hasApi := true
        errorMsg := "" } (by decide)⟩

/-- Terminal outcome of the checkUntil loop: normal return or the thrown
timeout error. -/
inductive CheckOutcome where
  | success
  | timeoutErr
deriving DecidableEq

/-- Delay of the sleep call between two iterations of checkUntil, the literal
of the source. -/
def checkUntilSleepMs : Nat := 100

/-- The checkUntil loop of the source, run over a trace of iterations.  Each
trace element carries the truth value returned by the polled predicate and the
elapsed time (t - t0) observed right after that poll.  Per iteration the
predicate result is inspected first; only on a falsy result is the deadline
tested.  A trace that ends before either exit yields none (the loop is still
running). -/
def checkUntilTrace : List (Bool × Nat) → Nat → Option CheckOutcome
  | [], _ => none
  | (b, t) :: rest, timeout =>
    if b then some CheckOutcome.success
    else if timeout ≤ t then some CheckOutcome.timeoutErr
    else checkUntilTrace rest timeout

/-- Default timeout of blockBarrier, the literal 4*6000 of the source. -/
def blockBarrierDefaultTimeoutMs : Nat := 4 * 6000

/-- The blockBarrier of the source: capture the chain height once from the
finalized or the best header, then run checkUntil over the worker height
polls, where one poll succeeds exactly when the reported blocknum is strictly
greater than the captured height.  Each trace element carries the polled
worker height and the elapsed time at that iteration. -/
def blockBarrier (bestHeight finalizedHeight : Nat) (finalizedMode : Bool)
    (polls : List (Nat × Nat)) (timeout : Nat) : Option CheckOutcome :=
  let chainHeight := if finalizedMode then finalizedHeight else bestHeight
  checkUntilTrace (polls.map (fun p => (decide (chainHeight < p.1), p.2))) timeout

theorem checkUntilTrace_no_true {polls : List (Bool × Nat)} {timeout : Nat}
    (h : ∀ p ∈ polls, p.1 = false) :
    checkUntilTrace polls timeout ≠ some CheckOutcome.success := by
  induction polls with
  | nil => simp [checkUntilTrace]
  | cons p rest ih =>
    obtain ⟨b, t⟩ := p
    have hb : b = false := h (b, t) (List.mem_cons_self _ _)
    subst hb
    simp only [checkUntilTrace, Bool.false_eq_true, if_neg, not_false_iff]
    by_cases ht : timeout ≤ t
    · rw [if_pos ht]
      simp
    · rw [if_neg ht]
      exact ih (fun q hq => h q (List.mem_cons_of_mem _ hq))

theorem checkUntilTrace_timeout {polls : List (Bool × Nat)} {timeout : Nat}
    (h : ∀ p ∈ polls, p.1 = false) (hex : ∃ p ∈ polls, timeout ≤ p.2) :
    checkUntilTrace polls timeout = some CheckOutcome.timeoutErr := by
  induction polls with
  | nil => rcases hex with ⟨p, hp, _⟩; cases hp
  | cons p rest ih =>
    obtain ⟨b, t⟩ := p
    have hb : b = false := h (b, t) (List.mem_cons_self _ _)
    subst hb
    simp only [checkUntilTrace, Bool.false_eq_true, if_neg, not_false_iff]
    by_cases ht : timeout ≤ t
    · rw [if_pos ht]
    · rw [if_neg ht]
      rcases hex with ⟨q, hq, hqt⟩
      rcases List.mem_cons.mp hq with rfl | hq'
      · exact absurd hqt ht
      · exact ih (fun q hq => h q (List.mem_cons_of_mem _ hq)) ⟨q, hq', hqt⟩

theorem checkUntilTrace_success {polls : List (Bool × Nat)} {timeout : Nat}
    (h : ∀ p ∈ polls, p.2 < timeout) (hex : ∃ p ∈ polls, p.1 = true) :
    checkUntilTrace polls timeout = some CheckOutcome.success := by
  induction polls with
  | nil => rcases hex with ⟨p, hp, _⟩; cases hp
  | cons p rest ih =>
    obtain ⟨b, t⟩ := p
    cases b with
    | true => simp [checkUntilTrace]
    | false =>
      simp only [checkUntilTrace, Bool.false_eq_true, if_neg, not_false_iff]
      have ht : ¬ timeout ≤ t := not_le.mpr (h (false, t) (List.mem_cons_self _ _))
      rw [if_neg ht]
      rcases hex with ⟨q, hq, hqb⟩
      rcases List.mem_cons.mp hq with rfl | hq'
      · cases hqb
      · exact ih (fun q hq => h q (List.mem_cons_of_mem _ hq)) ⟨q, hq', hqb⟩

theorem checkUntilTrace_err_exists {polls : List (Bool × Nat)} {timeout : Nat}
    (h : checkUntilTrace polls timeout = some CheckOutcome.timeoutErr) :
    ∃ p ∈ polls, p.1 = false ∧ timeout ≤ p.2 := by
  induction polls with
  | nil => cases h
  | cons p rest ih =>
    obtain ⟨b, t⟩ := p
    cases b with
    | true => simp [checkUntilTrace] at h
    | false =>
      simp only [checkUntilTrace, Bool.false_eq_true, if_neg, not_false_iff] at h
      by_cases ht : timeout ≤ t
      · exact ⟨(false, t), List.mem_cons_self _ _, rfl, ht⟩
      · rw [if_neg ht] at h
        rcases ih h with ⟨q, hq, hqb, hqt⟩
        exact ⟨q, List.mem_cons_of_mem _ hq, hqb, hqt⟩

/-- Claim C7: the barrier captures the chain height once (finalized or best
header depending on mode), polls every checkUntilSleepMs = 100 ms with a
default timeout of 24000 ms, succeeds only on a polled worker height strictly
greater than the captured target (so heights equal to the target never
succeed), and fails with a timeout error when no poll satisfies the strict
inequality within the window. -/
theorem claim_C7 (bestHeight finalizedHeight : Nat) (finalizedMode : Bool)
    (polls : List (Nat × Nat)) (timeout : Nat) :
    blockBarrierDefaultTimeoutMs = 24000 ∧
    checkUntilSleepMs = 100 ∧
    ((∀ p ∈ polls, p.1 ≤ (if finalizedMode then finalizedHeight else bestHeight)) →
      blockBarrier bestHeight finalizedHeight finalizedMode polls timeout ≠
        some CheckOutcome.success) ∧
    ((∀ p ∈ polls, p.1 ≤ (if finalizedMode then finalizedHeight else bestHeight)) →
      (∃ p ∈ polls, timeout ≤ p.2) →
      blockBarrier bestHeight finalizedHeight finalizedMode polls timeout =
        some CheckOutcome.timeoutErr) ∧
    ((∀ p ∈ polls, p.2 < timeout) →
      (∃ p ∈ polls, (if finalizedMode then finalizedHeight else bestHeight) < p.1) →
      blockBarrier bestHeight finalizedHeight finalizedMode polls timeout =
        some CheckOutcome.success) := by
  refine ⟨rfl, rfl, ?_, ?_, ?_⟩
  · intro hle
    apply checkUntilTrace_no_true
    intro q hq
    rcases List.mem_map.mp hq with ⟨p, hp, rfl⟩
    exact decide_eq_false (not_lt.mpr (hle p hp))
  · intro hle hex
    apply checkUntilTrace_timeout
    · intro q hq
      rcases List.mem_map.mp hq with ⟨p, hp, rfl⟩
      exact decide_eq_false (not_lt.mpr (hle p hp))
    · rcases hex with ⟨p, hp, hpt⟩
      exact ⟨((decide ((if finalizedMode then finalizedHeight else bestHeight) < p.1)), p.2),
        List.mem_map.mpr ⟨p, hp, rfl⟩, hpt⟩
  · intro hlt hex
    apply checkUntilTrace_success
    · intro q hq
      rcases List.mem_map.mp hq with ⟨p, hp, rfl⟩
      exact hlt p hp
    · rcases hex with ⟨p, hp, hpgt⟩
      exact ⟨((decide ((if finalizedMode then finalizedHeight else bestHeight) < p.1)), p.2),
        List.mem_map.mpr ⟨p, hp, rfl⟩, decide_eq_true hpgt⟩

/-- Witness for claim C7: with target height 100, worker heights 98, 99, 100
over the window give a timeout failure, while 98, 99, 101 inside the window
give success. -/
theorem claim_C7_w :
    blockBarrier 100 0 false [(98, 100), (99, 200), (100, 24000)] 24000 =
      some CheckOutcome.timeoutErr ∧
    blockBarrier 100 0 false [(98, 100), (99, 200), (101, 300)] 24000 =
      some CheckOutcome.success :=
  ⟨(claim_C7 100 0 false [(98, 100), (99, 200), (100, 24000)] 24000).2.2.2.1
      (by decide) (by decide),
    (claim_C7 100 0 false [(98, 100), (99, 200), (101, 300)] 24000).2.2.2.2
      (by decide) (by decide)⟩

/-- Claim C10: checkUntil inspects the polled predicate before the deadline on
every iteration: a truthy first evaluation succeeds whatever the elapsed time
and the timeout (including timeout 0), no outcome exists without at least one
evaluation, and the timeout error appears only after a falsy evaluation whose
elapsed time meets the timeout. -/
theorem claim_C10 (t timeout : Nat) (rest : List (Bool × Nat)) :
    checkUntilTrace ((true, t) :: rest) timeout = some CheckOutcome.success ∧
    checkUntilTrace [] timeout = none ∧
    (∀ polls : List (Bool × Nat),
      checkUntilTrace polls timeout = some CheckOutcome.timeoutErr →
      ∃ p ∈ polls, p.1 = false ∧ timeout ≤ p.2) := by
  refine ⟨by simp [checkUntilTrace], rfl, ?_⟩
  intro polls h
  exact checkUntilTrace_err_exists h

/-- Witness for claim C10: a poll that is already past a timeout of 0 still
succeeds when its first evaluation is truthy, and a concrete timeout run
exhibits its falsy late evaluation. -/
theorem claim_C10_w :
    checkUntilTrace [(true, 999)] 0 = some CheckOutcome.success ∧
    (∃ p ∈ ([(false, 5)] : List (Bool × Nat)), p.1 = false ∧ 3 ≤ p.2) :=
  ⟨(claim_C10 999 0 []).1,
    (claim_C10 0 3 []).2.2 [(false, 5)] (by decide)⟩

/-- One event record delivered with an extrinsic lifecycle notification; data0
is the first element of the event data, the payload attached to a failure. -/
structure EventRecEntry where
  sect : String
  method : String
  data0 : String
deriving DecidableEq

/-- Status of an extrinsic lifecycle notification. -/
inductive TxStatus where
  | ready
  | broadcast
  | inBlock (hash : String)
  | finalized
  | invalid
deriving DecidableEq

/-- What one invocation of the signAndSend callback does to the promise. -/
inductive TxAction where
  | noAction
  | resolveInBlock (hash : String) (events : List EventRecEntry)
  | rejectFailure (payload : String)
  | rejectInvalid
deriving DecidableEq

/-- Result of one callback invocation: the promise action taken and how many
times unsub was called. -/
structure CallbackStep where
  action : TxAction
  unsubCalls : Nat
deriving DecidableEq

/-- The error scan of the signAndSend callback: the for loop over the
notification events keeps overwriting error with data[0] of each
system.ExtrinsicFailed event, so it yields the payload of the last match. -/
def scanExtrinsicFailed (events : List EventRecEntry) : Option String :=
  events.foldl
    (fun err e =>
      if e.sect == "system" && e.method == "ExtrinsicFailed" then some e.data0 else err)
    none

/-- One invocation of the signAndSend subscription callback, translated from
the source.  On isInBlock: scan for a failure, call unsub once, then reject
with the payload if one was found, else resolve with the block hash and the
event list (toHuman rendering is modelled as the identity on the embedded
records).  On isInvalid: call unsub once and reject.  Other statuses act on
nothing. -/
def signAndSendCallback (status : TxStatus) (events : List EventRecEntry) : CallbackStep :=
  match status with
  | TxStatus.inBlock h =>
    match scanExtrinsicFailed events with
    | some payload => { action := TxAction.rejectFailure payload, unsubCalls := 1 }
    | none => { action := TxAction.resolveInBlock h events, unsubCalls := 1 }
  | TxStatus.invalid => { action := TxAction.rejectInvalid, unsubCalls := 1 }
  | _ => { action := TxAction.noAction, unsubCalls := 0 }

theorem scan_foldl_cases (events : List EventRecEntry) (acc : Option String) :
    (events.foldl
        (fun err e =>
          if e.sect == "system" && e.method == "ExtrinsicFailed" then some e.data0 else err)
        acc = acc ∧
      ∀ e ∈ events, ¬(e.sect = "system" ∧ e.method = "ExtrinsicFailed")) ∨
    (∃ e ∈ events, e.sect = "system" ∧ e.method = "ExtrinsicFailed" ∧
      events.foldl
        (fun err e =>
          if e.sect == "system" && e.method == "ExtrinsicFailed" then some e.data0 else err)
        acc = some e.data0) := by
  induction events generalizing acc with
  | nil => exact Or.inl ⟨rfl, by intro e he; cases he⟩
  | cons e es ih =>
    by_cases hm : e.sect = "system" ∧ e.method = "ExtrinsicFailed"
    · have hb : (e.sect == "system" && e.method == "ExtrinsicFailed") = true := by
        rw [hm.1, hm.2]
        rfl
      rcases ih (some e.data0) with ⟨heq, hnone⟩ | ⟨e₂, hmem, hs, hmth, heq⟩
      · refine Or.inr ⟨e, List.mem_cons_self _ _, hm.1, hm.2, ?_⟩
        simp only [List.foldl_cons, hb, if_pos]
        exact heq
      · refine Or.inr ⟨e₂, List.mem_cons_of_mem _ hmem, hs, hmth, ?_⟩
        simp only [List.foldl_cons, hb, if_pos]
        exact heq
    · have hb : (e.sect == "system" && e.method == "ExtrinsicFailed") = false := by
        revert hm
        cases hs : e.sect == "system" <;> cases hmth : e.method == "ExtrinsicFailed" <;>
          simp [beq_iff_eq] at hs hmth ⊢ <;> simp [hs, hmth]
      rcases ih acc with ⟨heq, hnone⟩ | ⟨e₂, hmem, hs, hmth, heq⟩
      · refine Or.inl ⟨?_, ?_⟩
        · simp only [List.foldl_cons, hb, Bool.false_eq_true, if_neg, not_false_iff]
          exact heq
        · intro e₃ he₃
          rcases List.mem_cons.mp he₃ with rfl | he₃'
          · exact hm
          · exact hnone e₃ he₃'
      · refine Or.inr ⟨e₂, List.mem_cons_of_mem _ hmem, hs, hmth, ?_⟩
        simp only [List.foldl_cons, hb, Bool.false_eq_true, if_neg, not_false_iff]
        exact heq

/-- Claim C1: on an InBlock notification whose event list contains a
system.ExtrinsicFailed event the callback rejects with the attached payload of
such an event; with no such event it resolves with the block hash and the
event list; on an Invalid notification it rejects at once; and on each of
these terminal paths unsub is called exactly once. -/
theorem claim_C1 (bh : String) (events : List EventRecEntry) :
    ((∃ e ∈ events, e.sect = "system" ∧ e.method = "ExtrinsicFailed") →
      ∃ e ∈ events, e.sect = "system" ∧ e.method = "ExtrinsicFailed" ∧
        signAndSendCallback (TxStatus.inBlock bh) events =
          { action := TxAction.rejectFailure e.data0, unsubCalls := 1 }) ∧
    ((∀ e ∈ events, ¬(e.sect = "system" ∧ e.method = "ExtrinsicFailed")) →
      signAndSendCallback (TxStatus.inBlock bh) events =
        { action := TxAction.resolveInBlock bh events, unsubCalls := 1 }) ∧
    signAndSendCallback TxStatus.invalid events =
      { action := TxAction.rejectInvalid, unsubCalls := 1 } ∧
    (signAndSendCallback (TxStatus.inBlock bh) events).unsubCalls = 1 := by
  refine ⟨?_, ?_, rfl, ?_⟩
  · intro hex
    rcases scan_foldl_cases events none with ⟨_, hnone⟩ | ⟨e, hmem, hs, hm, heq⟩
    · rcases hex with ⟨e, hmem, hprop⟩
      exact absurd hprop (hnone e hmem)
    · refine ⟨e, hmem, hs, hm, ?_⟩
      simp only [signAndSendCallback, scanExtrinsicFailed, heq]
  · intro hall
    rcases scan_foldl_cases events none with ⟨heq, _⟩ | ⟨e, hmem, hs, hm, _⟩
    · simp only [signAndSendCallback, scanExtrinsicFailed, heq]
    · exact absurd ⟨hs, hm⟩ (hall e hmem)
  · rcases scan_foldl_cases events none with ⟨heq, _⟩ | ⟨e, _, _, _, heq⟩ <;>
      simp only [signAndSendCallback, scanExtrinsicFailed, heq]

/-- Witness for claim C1 at a failing and a clean InBlock notification. -/
theorem claim_C1_w :
    (∃ e ∈ ([⟨"system", "ExtrinsicFailed", "err0"⟩] : List EventRecEntry),
      e.sect = "system" ∧ e.method = "ExtrinsicFailed" ∧
        signAndSendCallback (TxStatus.inBlock "0xb") [⟨"system", "ExtrinsicFailed", "err0"⟩] =
          { action := TxAction.rejectFailure e.data0, unsubCalls := 1 }) ∧
    signAndSendCallback (TxStatus.inBlock "0xb") [⟨"phala", "Instantiating", "x"⟩] =
      { action :=
          TxAction.resolveInBlock "0xb" [⟨"phala", "Instantiating", "x"⟩], unsubCalls := 1 } :=
  ⟨(claim_C1 "0xb" [⟨"system", "ExtrinsicFailed", "err0"⟩]).1
      ⟨⟨"system", "ExtrinsicFailed", "err0"⟩, by decide⟩,
    (claim_C1 "0xb" [⟨"phala", "Instantiating", "x"⟩]).2.1 (by decide)⟩

/-- Settlement state of a JavaScript promise. -/
inductive PromiseState where
  | pending
  | resolved (v : String)
  | rejected (e : String)
deriving DecidableEq

/-- Behavior of a promise executor function. -/
inductive ExecutorBehavior where
  | syncThrow (e : String)
  | asyncRejected (e : String)
  | stillRunning
deriving DecidableEq

/-- Modelled JS semantics of the Promise constructor: an exception thrown
synchronously by the executor rejects the promise, but the rejection of an
async executor is an ignored return value, so the constructed promise is left
pending. -/
def promiseFromExecutor : ExecutorBehavior → PromiseState
  | ExecutorBehavior.syncThrow e => PromiseState.rejected e
  | ExecutorBehavior.asyncRejected _ => PromiseState.pending
  | ExecutorBehavior.stillRunning => PromiseState.pending

/-- The promise returned by signAndSend when awaiting target.signAndSend (the
subscription set-up) fails: the source wraps an async executor in new Promise,
so the await failure rejects only the inner async-function promise and the
executor behaves as asyncRejected towards the constructor. -/
def signAndSendOnSubscribeFailure (err : String) : PromiseState :=
  promiseFromExecutor (ExecutorBehavior.asyncRejected err)

/-- Claim C9 names a code bug: when awaiting the subscription fails with a
network error, the promise returned by signAndSend stays pending forever
instead of rejecting with that error; the failure is swallowed as an
unhandled rejection of the inner async function. -/
theorem claim_C9_bug :
    signAndSendOnSubscribeFailure "network error" = PromiseState.pending ∧
    signAndSendOnSubscribeFailure "network error" ≠
      PromiseState.rejected "network error" := by
  decide

/-- One record of the results log (type MethodRunResult of the source); the
contract and method specification fields, which the query branch copies
through unchanged, are omitted. -/
structure MethodRunResult where
  succeed : Bool
  args : List (String × String)
  output : Option String
  completedAt : Nat
deriving DecidableEq

/-- Outcome of the worker query in useRunner: the ok discriminant of
queryResult.result, the humanized decoded output payload, and the humanized
error or revert payload of queryResult.result. -/
structure QueryOutcome where
  isOk : Bool
  outputHuman : Option String
  resultHuman : String
deriving DecidableEq

/-- The dispatchResultsAtom write of the source: prepend the new record. -/
def dispatchResult (prev : List MethodRunResult) (r : MethodRunResult) :
    List MethodRunResult :=
  r :: prev

/-- The read-only query branch of useRunner, translated from the source: on an
ok discriminant append a succeeding record with the decoded output, otherwise
append a failing record with the decoded error payload; both through
dispatchResult, and the branch never throws. -/
def runQueryBranch (inputs : List (String × String)) (qr : QueryOutcome) (now : Nat)
    (prev : List MethodRunResult) : List MethodRunResult :=
  if qr.isOk then
    dispatchResult prev
      { succeed := true, args := inputs, output := qr.outputHuman, completedAt := now }
  else
    dispatchResult prev
      { succeed := false, args := inputs, output := some qr.resultHuman, completedAt := now }

/-- Claim C8: every query that reaches the worker appends exactly one
RunResult at the front of the log, leaving the older records intact; an ok
discriminant gives succeed true with the decoded output, a failure
discriminant gives succeed false with the decoded error payload, and neither
outcome is discarded or thrown. -/
theorem claim_C8 (inputs : List (String × String)) (qr : QueryOutcome) (now : Nat)
    (prev : List MethodRunResult) :
    (runQueryBranch inputs qr now prev).length = prev.length + 1 ∧
    (runQueryBranch inputs qr now prev).tail = prev ∧
    (qr.isOk = true →
      runQueryBranch inputs qr now prev =
        { succeed := true, args := inputs, output := qr.outputHuman,
          completedAt := now } :: prev) ∧
    (qr.isOk = false →
      runQueryBranch inputs qr now prev =
        { succeed := false, args := inputs, output := some qr.resultHuman,
          completedAt := now } :: prev) := by
  cases hok : qr.isOk with
  | true =>
    refine ⟨?_, ?_, fun _ => ?_, fun hc => absurd hc (by decide)⟩ <;>
      simp [runQueryBranch, dispatchResult, hok]
  | false =>
    refine ⟨?_, ?_, fun hc => absurd hc (by decide), fun _ => ?_⟩ <;>
      simp [runQueryBranch, dispatchResult, hok]

/-- Witness for claim C8 at a failing and a succeeding concrete query. -/
theorem claim_C8_w :
    runQueryBranch [("a", "1")]
        { isOk := false, outputHuman := none, resultHuman := "Module error" } 42 [] =
      [{ succeed := false, args := [("a", "1")], output := some "Module error",
          completedAt := 42 }] ∧
    runQueryBranch [] { isOk := true, outputHuman := some "7", resultHuman := "" } 43 [] =
      [{ succeed := true, args := [], output := some "7", completedAt := 43 }] :=
  ⟨(claim_C8 [("a", "1")]
      { isOk := false, outputHuman := none, resultHuman := "Module error" } 42 []).2.2.2 rfl,
    (claim_C8 [] { isOk := true, outputHuman := some "7", resultHuman := "" } 43 []).2.2.1 rfl⟩
